import Mathlib

/-!
Verification development for the feed-forward neural network in
`network.py` (class `Network`, together with the `Layer` and `Neuron`
collaborators it imports).

Modelling decisions:
* Python floats are modelled as exact rationals (`Rat`); all the claims
  under study are structural / algebraic, and Python's `json` module
  round-trips float values exactly, so the exact model is faithful for
  them.
* The transcendental library routines `math.exp` and `math.tanh`, the
  behaviour of activation callables that are not one of the four
  registry functions, and the (source-unspecified) construction-time
  weight initializer are abstracted into an environment `Env` of
  rational functions; every theorem is proved for every environment.
* Python exceptions are modelled with `Except Err`; in-place mutation is
  modelled by explicit state passing, returning the mutated structure
  alongside the result, so that partially-mutated states on error paths
  are also visible.
* `neuron.py` and `layer.py` are not part of the sources; their
  behaviour (`Neuron.process`, `Layer.process`, the constructors) is
  modelled from the spec, and each such definition is marked
  `Modelled from the spec:` in its doc comment.
-/

/-- Identity of a Python activation-function object. The four registry
functions (`ACTIVATION_LINEAR`, `ACTIVATION_TANH`, `ACTIVATION_SIGMOID`,
`ACTIVATION_STEP`) are compared by object identity in the source, so they
form an enumeration; `other i` stands for any further function object
(distinct `i` for distinct objects). -/
inductive ActId where
  | linear
  | tanh
  | sigmoid
  | step
  | other (i : Nat)
  deriving DecidableEq, Repr

/-- Environment abstracting the parts of the runtime that are not code of
this repository: the float library functions used by the activations, the
behaviour of unregistered activation/derivative callables, and the
construction-time weight/bias initializer (which the spec leaves to an
external collaborator). -/
structure Env where
  exp : Rat → Rat
  tanhFn : Rat → Rat
  otherAct : Nat → Rat → Rat
  otherDeriv : Nat → Rat → Rat
  initW : Nat → Nat → Rat
  initB : Nat → Rat

/-- Python exception kinds that the modelled code can raise. -/
inductive Err where
  | dimensionMismatch
  | indexError
  | typeError
  | keyError
  | nameError
  | invalidModelFile (path : String)
  deriving DecidableEq, Repr

/-- Modelled from the spec: a `Neuron` (from the absent `neuron.py`) owns a
weight vector, a bias, its activation and derivative function objects
(either may be Python `None`, modelled as `none`), and the transient
per-pass fields `last_input`, `last_output`, `error`, `delta`. The
transient fields start at inert defaults; they are written before any read
on every path exercised by the claims. -/
structure Neuron where
  weights : List Rat
  bias : Rat
  activation : Option ActId
  derive : Option ActId
  last_input : List Rat := []
  last_output : Rat := 0
  error : Rat := 0
  delta : Rat := 0
  deriving DecidableEq, Repr

/-- Modelled from the spec: a `Layer` (from the absent `layer.py`) owns an
ordered list of neurons. -/
structure Layer where
  neurons : List Neuron
  deriving DecidableEq, Repr

/-- A `Network` owns an ordered list of layers (`self.layers`). -/
structure Network where
  layers : List Layer
  deriving DecidableEq, Repr

/-- Application of an activation-function object (`ACTIVATION_LINEAR`,
`ACTIVATION_TANH = math.tanh`, `ACTIVATION_SIGMOID = 1/(1+exp(-x))`,
`ACTIVATION_STEP`); calling Python `None` raises a `TypeError`. -/
def applyAct (env : Env) : Option ActId → Rat → Except Err Rat
  | none, _ => .error .typeError
  | some .linear, x => .ok x
  | some .tanh, x => .ok (env.tanhFn x)
  | some .sigmoid, x => .ok (1 / (1 + env.exp (-x)))
  | some .step, x => .ok (if x ≥ 0 then 1 else 0)
  | some (.other i), x => .ok (env.otherAct i x)

/-- Application of a derivative-function object (`DERIVATIVE_LINEAR`,
`DERIVATIVE_TANH`, `DERIVATIVE_SIGMOID`, `DERIVATIVE_STEP`); calling
Python `None` raises a `TypeError`. -/
def applyDeriv (env : Env) : Option ActId → Rat → Except Err Rat
  | none, _ => .error .typeError
  | some .linear, _ => .ok 1
  | some .tanh, x => .ok (1 - x ^ 2)
  | some .sigmoid, x => .ok (x * (1 - x))
  | some .step, x => .ok (if |x| < 1 / 10000 then 0 else 1)
  | some (.other i), x => .ok (env.otherDeriv i x)

/-- Modelled from the spec: `Neuron.process` (absent `neuron.py`) requires
`len(input) == len(weights)` (else `DimensionMismatch`), computes
`sum_i(weights[i] * input[i]) + bias`, applies the activation function,
then stores the input as `last_input` and the result as `last_output` and
returns the result. -/
def Neuron.process (env : Env) (n : Neuron) (inputs : List Rat) :
    Except Err (Neuron × Rat) :=
  if inputs.length = n.weights.length then
    match applyAct env n.activation
        ((List.zipWith (fun w x => w * x) n.weights inputs).sum + n.bias) with
    | .error e => .error e
    | .ok out => .ok ({ n with last_input := inputs, last_output := out }, out)
  else
    .error .dimensionMismatch

/-- Modelled from the spec: the neuron loop of `Layer.process` (absent
`layer.py`) feeds the same input vector to each neuron in order,
collecting the scalar outputs; on an exception the already-processed
prefix keeps its mutated state. -/
def layerGo (env : Env) (inputs : List Rat) :
    List Neuron → List Neuron × Except Err (List Rat)
  | [] => ([], .ok [])
  | n :: ns =>
    match n.process env inputs with
    | .error e => (n :: ns, .error e)
    | .ok (n', out) =>
      match layerGo env inputs ns with
      | (ns', .error e) => (n' :: ns', .error e)
      | (ns', .ok outs) => (n' :: ns', .ok (out :: outs))

/-- Modelled from the spec: `Layer.process` applies `Neuron.process` to
every neuron with the same input vector, producing the vector of neuron
outputs in neuron order. -/
def Layer.process (env : Env) (ly : Layer) (inputs : List Rat) :
    Layer × Except Err (List Rat) :=
  match layerGo env inputs ly.neurons with
  | (ns, r) => (⟨ns⟩, r)

/-- The layer loop of `Network.process`: `outputs = None` initially, then
for each layer `outputs = layer.process(inputs); inputs = outputs`. The
mutated prefix of layers is kept when a layer raises. -/
def networkGo (env : Env) :
    List Layer → List Rat → Option (List Rat) →
      List Layer × Except Err (Option (List Rat))
  | [], _, outs => ([], .ok outs)
  | ly :: rest, inputs, _ =>
    match ly.process env inputs with
    | (ly', .error e) => (ly' :: rest, .error e)
    | (ly', .ok outs) =>
      match networkGo env rest outs (some outs) with
      | (rest', r) => (ly' :: rest', r)

/-- `Network.process`: feeds the inputs through the layers in order and
returns the last layer's output vector; on an empty network the Python
code returns `None` (modelled as `.ok none`) without raising. -/
def Network.process (env : Env) (net : Network) (inputs : List Rat) :
    Network × Except Err (Option (List Rat)) :=
  match networkGo env net.layers inputs none with
  | (lys, r) => (⟨lys⟩, r)

/-- The output-layer loop of `Network.train` (lines 125-131): for each
output neuron `k`, set `error = targets[k] - outputs[k]`, accumulate
`0.5 * error ** 2` into the loss, and set
`delta = derive(last_output) * error`. `targets[k]` raises `IndexError`
when `k` is out of range (checked before `outputs[k]`, as in the source);
a `None` derivative raises `TypeError` after `error` was already stored. -/
def outputGo (env : Env) :
    List Neuron → List Rat → List Rat → Rat →
      List Neuron × Except Err Rat
  | [], _, _, acc => ([], .ok acc)
  | n :: ns, [], _, _ => (n :: ns, .error .indexError)
  | n :: ns, _ :: _, [], _ => (n :: ns, .error .indexError)
  | n :: ns, t :: ts, o :: os, acc =>
    let err := t - o
    match applyDeriv env n.derive n.last_output with
    | .error e => ({ n with error := err } :: ns, .error e)
    | .ok dv =>
      let n' := { n with error := err, delta := dv * err }
      match outputGo env ns ts os (acc + 1 / 2 * err ^ 2) with
      | (ns', r) => (n' :: ns', r)

/-- The per-`l`-inner sum of line 142:
`sum([neuron.weights[l] * neuron.delta for neuron in layer_next.neurons])`;
`weights[l]` raises `IndexError` when out of range. -/
def nextErrSum : List Neuron → Nat → Except Err Rat
  | [], _ => .ok 0
  | m :: ms, l =>
    match m.weights.get? l with
    | none => .error .indexError
    | some w =>
      match nextErrSum ms l with
      | .error e => .error e
      | .ok s => .ok (w * m.delta + s)

/-- The weight loop of lines 152-154: for `n` in
`range(len(neuron_m.weights))`,
`weights[n] += learn_rate * last_input[n] * error`; `last_input[n]` raises
`IndexError` when `last_input` is shorter than `weights`. -/
def updWeights (rate err : Rat) : List Rat → List Rat → Except Err (List Rat)
  | [], _ => .ok []
  | _ :: _, [] => .error .indexError
  | w :: ws, li :: lis =>
    match updWeights rate err ws lis with
    | .error e => .error e
    | .ok rest => .ok ((w + rate * li * err) :: rest)

/-- The body of the `m` loop (lines 148-157) applied to one next-layer
neuron: every weight gets `+= learn_rate * last_input[n] * error` (the
neuron's own `error`), and the bias gets `+= learn_rate * delta` — the
neuron's own `delta` (line 157 reads `neuron_m.delta`). -/
def updNext (rate : Rat) (m : Neuron) : Except Err Neuron :=
  match updWeights rate m.error m.weights m.last_input with
  | .error e => .error e
  | .ok ws => .ok { m with weights := ws, bias := m.bias + rate * m.delta }

/-- The `m` loop over all next-layer neurons for a single `l` iteration. -/
def updAll (rate : Rat) : List Neuron → Except Err (List Neuron)
  | [] => .ok []
  | m :: ms =>
    match updNext rate m with
    | .error e => .error e
    | .ok m' =>
      match updAll rate ms with
      | .error e => .error e
      | .ok ms' => .ok (m' :: ms')

/-- The `l` loop of lines 139-157 over the current layer's neurons,
threading the next layer's neurons (whose weights and biases are mutated
once per `l` iteration, so iteration `l` reads the weights already updated
by iterations below `l`). `snap` is the value of the Python variable
`neuron` at line 145: in the source this is the variable left over from
the *output-layer* loop (line 127) — i.e. the last neuron of the output
layer — since the line-142 list comprehension has its own scope; `none`
(no output neuron was ever bound) raises `NameError` at line 145. -/
def lLoop (env : Env) (rate : Rat) (snap : Option Neuron) :
    Nat → List Neuron → List Neuron →
      List Neuron × List Neuron × Option Err
  | _, [], next => ([], next, none)
  | l, c :: cs, next =>
    match nextErrSum next l with
    | .error e => (c :: cs, next, some e)
    | .ok errL =>
      match snap with
      | none => ({ c with error := errL } :: cs, next, some .nameError)
      | some s =>
        match applyDeriv env s.derive s.last_output with
        | .error e => ({ c with error := errL } :: cs, next, some e)
        | .ok dv =>
          let c' := { c with error := errL, delta := dv * errL }
          match updAll rate next with
          | .error e => (c' :: cs, next, some e)
          | .ok next' =>
            match lLoop env rate snap (l + 1) cs next' with
            | (cs', next'', oe) => (c' :: cs', next'', oe)

/-- The backward walk of lines 134-157: `k` runs from `len(layers) - 2`
down to `0`, so adjacent pairs are processed output-side first; the pair
step mutates the current layer's neurons (error/delta) and the next
layer's neurons (weights/bias). -/
def backWalk (env : Env) (rate : Rat) (snap : Option Neuron) :
    List Layer → List Layer × Option Err
  | [] => ([], none)
  | [ly] => ([ly], none)
  | ly :: rest =>
    match backWalk env rate snap rest with
    | (rest', some e) => (ly :: rest', some e)
    | (rest', none) =>
      match rest' with
      | [] => (ly :: rest', none)
      | nx :: rest'' =>
        match lLoop env rate snap 0 ly.neurons nx.neurons with
        | (curN, nxN, oe) => (⟨curN⟩ :: ⟨nxN⟩ :: rest'', oe)

/-- `Network.train` (lines 109-159): `self.layers[-1]` raises `IndexError`
on an empty network; otherwise run `process`, the output-layer pass, and
the backward walk, returning the accumulated loss. The returned `Network`
is the in-place-mutated state, also on error paths. -/
def Network.train (env : Env) (net : Network) (inputs targets : List Rat)
    (rate : Rat) : Network × Except Err Rat :=
  match net.layers.getLast? with
  | none => (net, .error .indexError)
  | some _ =>
    match net.process env inputs with
    | (net₁, .error e) => (net₁, .error e)
    | (net₁, .ok none) => (net₁, .error .indexError)
    | (net₁, .ok (some outs)) =>
      let outLy := (net₁.layers.getLast?).getD ⟨[]⟩
      match outputGo env outLy.neurons targets outs 0 with
      | (outN, .error e) =>
        (⟨net₁.layers.dropLast ++ [⟨outN⟩]⟩, .error e)
      | (outN, .ok loss) =>
        let snap := outN.getLast?
        let layers₂ := net₁.layers.dropLast ++ [(⟨outN⟩ : Layer)]
        match backWalk env rate snap layers₂ with
        | (layers₃, some e) => (⟨layers₃⟩, .error e)
        | (layers₃, none) => (⟨layers₃⟩, .ok loss)

/-- JSON documents as produced by `json.dumps` / consumed by `json.loads`
(the subset relevant to the model format; the textual rendering with
`indent=4` round-trips values exactly and is left abstract). -/
inductive Json where
  | num (q : Rat)
  | str (s : String)
  | null
  | arr (xs : List Json)
  | obj (kvs : List (String × Json))

/-- The if/elif chain of `Network.save` lines 183-187: map an activation
function object to its registry number (`LINEAR = 0`, `SIGMOID = 2`,
`TANH = 1`, `STEP = 3`); any other object — including Python `None` —
leaves `enum = None`. -/
def actEnum : Option ActId → Option Nat
  | some .linear => some 0
  | some .sigmoid => some 2
  | some .tanh => some 1
  | some .step => some 3
  | _ => none

/-- The per-neuron dictionary built by `Network.save` lines 178-196:
insertion order `weights`, `bias`, `activation`. -/
def encodeNeuron (n : Neuron) : Json :=
  .obj [("weights", .arr (n.weights.map Json.num)),
        ("bias", .num n.bias),
        ("activation", match actEnum n.activation with
                       | some t => .num (t : Rat)
                       | none => .null)]

/-- The per-layer dictionary of `Network.save` lines 173-200. -/
def encodeLayer (ly : Layer) : Json :=
  .obj [("neurons", .arr (ly.neurons.map encodeNeuron))]

/-- `Network.save` (lines 161-210): the document written to the file
(the file write itself, and its possible `IOError`, are outside the
model). The tag conversion is total: a neuron whose activation is not a
registry function serializes with `"activation": null`, without error. -/
def Network.save (net : Network) : Json :=
  .obj [("layers", .arr (net.layers.map encodeLayer))]

/-- Python subscript on a parsed JSON object (`d[key]`): `KeyError` when
the key is absent, `TypeError` when the value is not a dictionary. -/
def jget (j : Json) (key : String) : Except Err Json :=
  match j with
  | .obj kvs =>
    match kvs.lookup key with
    | some v => .ok v
    | none => .error .keyError
  | _ => .error .keyError

/-- Iterating a parsed JSON value as a list. The Python code iterates
non-list values too (dictionaries yield keys, strings yield characters),
but every such iteration ends in an exception inside the same `try`
block before any observable result, so the model fails here directly. -/
def jarr : Json → Except Err (List Json)
  | .arr xs => .ok xs
  | _ => .error .typeError

/-- A JSON number. `Network.load` stores `weights`/`bias` unchecked and a
non-numeric value would only raise at first use; no claim reaches that
corner, so the model checks at decode time. -/
def jnum : Json → Except Err Rat
  | .num q => .ok q
  | _ => .error .typeError

/-- Element-wise numeric reading of a parsed JSON list. -/
def jnumsList : List Json → Except Err (List Rat)
  | [] => .ok []
  | x :: xs =>
    match jnum x with
    | .error e => .error e
    | .ok q =>
      match jnumsList xs with
      | .error e => .error e
      | .ok qs => .ok (q :: qs)

/-- A JSON list of numbers (the `weights` entry). -/
def jnums (j : Json) : Except Err (List Rat) :=
  match jarr j with
  | .error e => .error e
  | .ok xs => jnumsList xs

/-- The if/elif chain of `Network.load` lines 240-251: resolve the stored
`activation` value against `LINEAR = 0`, `SIGMOID = 2`, `TANH = 1`,
`STEP = 3`; on no match both the activation and the derivative stay
Python `None`, and NO exception is raised. -/
def tagPair (j : Json) : Option ActId × Option ActId :=
  match j with
  | .num q =>
    if q = 0 then (some .linear, some .linear)
    else if q = 2 then (some .sigmoid, some .sigmoid)
    else if q = 1 then (some .tanh, some .tanh)
    else if q = 3 then (some .step, some .step)
    else (none, none)
  | _ => (none, none)

/-- The neuron reconstruction of `Network.load` lines 232-259:
`Neuron(0, activation_func, derivative_func)` then `weights`/`bias`
assigned verbatim. -/
def decodeNeuron (j : Json) : Except Err Neuron :=
  match jget j "weights" with
  | .error e => .error e
  | .ok wj =>
    match jnums wj with
    | .error e => .error e
    | .ok ws =>
      match jget j "bias" with
      | .error e => .error e
      | .ok bj =>
        match jnum bj with
        | .error e => .error e
        | .ok b =>
          match jget j "activation" with
          | .error e => .error e
          | .ok aj =>
            match tagPair aj with
            | (act, der) =>
              .ok { weights := ws, bias := b, activation := act,
                    derive := der }

/-- The inner neuron loop of `Network.load` lines 232-259. -/
def decodeNeurons : List Json → Except Err (List Neuron)
  | [] => .ok []
  | x :: xs =>
    match decodeNeuron x with
    | .error e => .error e
    | .ok n =>
      match decodeNeurons xs with
      | .error e => .error e
      | .ok ns => .ok (n :: ns)

/-- The layer reconstruction of `Network.load` lines 228-266:
`Layer(0, 0, None, None)` with its neurons replaced. -/
def decodeLayer (j : Json) : Except Err Layer :=
  match jget j "neurons" with
  | .error e => .error e
  | .ok nj =>
    match jarr nj with
    | .error e => .error e
    | .ok ns =>
      match decodeNeurons ns with
      | .error e => .error e
      | .ok neurons => .ok ⟨neurons⟩

/-- The outer layer loop of `Network.load` lines 228-266. -/
def decodeLayers : List Json → Except Err (List Layer)
  | [] => .ok []
  | x :: xs =>
    match decodeLayer x with
    | .error e => .error e
    | .ok ly =>
      match decodeLayers xs with
      | .error e => .error e
      | .ok lys => .ok (ly :: lys)

/-- The body of the `try` block of `Network.load`: extract
`network_json["layers"]` and rebuild every layer. -/
def decodeNetwork (j : Json) : Except Err Network :=
  match jget j "layers" with
  | .error e => .error e
  | .ok lj =>
    match jarr lj with
    | .error e => .error e
    | .ok ls =>
      match decodeLayers ls with
      | .error e => .error e
      | .ok lys => .ok ⟨lys⟩

/-- `Network.load` (lines 212-270). Its input is the outcome of
`open(path)` + `json.loads` (Python-library behaviour, abstracted):
`.error` for a missing/unreadable file or unparsable text, `.ok j` for a
parsed document. The bare `except:` collapses every exception raised
inside the `try` into the single wrapped error carrying the path. -/
def Network.load (path : String) (readResult : Except Err Json) :
    Except Err Network :=
  match readResult with
  | .error _ => .error (.invalidModelFile path)
  | .ok j =>
    match decodeNetwork j with
    | .error _ => .error (.invalidModelFile path)
    | .ok net => .ok net

/-- Modelled from the spec: the `Layer(num_neurons, num_inputs,
activation, derivative)` constructor (absent `layer.py`) builds
`num_neurons` neurons of input width `num_inputs`; the weight/bias
initialization policy is left to the environment since the source leaves
it implicit. -/
def mkLayer (env : Env) (numNeurons numInputs : Nat)
    (act der : Option ActId) : Layer :=
  ⟨(List.range numNeurons).map fun j =>
    { weights := (List.range numInputs).map (env.initW j),
      bias := env.initB j, activation := act, derive := der }⟩

/-- The derivative-selection chain of `Network.add_layer` lines 100-105:
an unregistered activation function leaves the derivative Python `None`. -/
def derivFor : ActId → Option ActId
  | .linear => some .linear
  | .sigmoid => some .sigmoid
  | .tanh => some .tanh
  | .step => some .step
  | .other _ => none

/-- `Network.add_layer` (lines 73-107): when `num_inputs` is `None` it is
taken as the neuron count of `self.layers[-1]` — an `IndexError` when no
layer exists; when `activation` is `None` it defaults to
`ACTIVATION_SIGMOID`; the derivative is resolved by the identity chain of
lines 102-105, staying `None` for an unregistered activation. -/
def Network.add_layer (env : Env) (net : Network) (numNeurons : Nat)
    (numInputs? : Option Nat) (act? : Option ActId) :
    Except Err Network :=
  match numInputs?, net.layers.getLast? with
  | none, none => .error .indexError
  | none, some last =>
    .ok ⟨net.layers ++ [mkLayer env numNeurons last.neurons.length
          (some (act?.getD .sigmoid))
          (derivFor (act?.getD .sigmoid))]⟩
  | some k, _ =>
    .ok ⟨net.layers ++ [mkLayer env numNeurons k
          (some (act?.getD .sigmoid))
          (derivFor (act?.getD .sigmoid))]⟩

/-- The structural signature of a neuron: its weight-vector length (input
width) together with the identities of its activation and derivative
functions — everything about a neuron other than the weight/bias values
and the transient fields. -/
def sig (n : Neuron) : Nat × Option ActId × Option ActId :=
  (n.weights.length, n.activation, n.derive)

/-- The structure of a network: per layer, per neuron, the signature. -/
def structureOf (net : Network) : List (List (Nat × Option ActId × Option ActId)) :=
  net.layers.map fun ly => ly.neurons.map sig

lemma Neuron.process_ok_weights {env : Env} {n n' : Neuron} {ins : List Rat}
    {out : Rat} (h : n.process env ins = .ok (n', out)) :
    n'.weights = n.weights ∧ n'.bias = n.bias ∧
      n'.activation = n.activation ∧ n'.derive = n.derive := by
  unfold Neuron.process at h
  split at h
  · split at h
    · exact absurd h (by simp)
    · simp only [Except.ok.injEq, Prod.mk.injEq] at h
      obtain ⟨h1, _⟩ := h
      subst h1
      exact ⟨rfl, rfl, rfl, rfl⟩
  · exact absurd h (by simp)

lemma layerGo_map_sig (env : Env) (ins : List Rat) (ns : List Neuron) :
    ((layerGo env ins ns).1).map sig = ns.map sig := by
  induction ns with
  | nil => simp [layerGo]
  | cons n ns ih =>
    unfold layerGo
    split
    next e heq => simp
    next n' out heq =>
      obtain ⟨hw, _, ha, hd⟩ := Neuron.process_ok_weights heq
      split
      next ns' e heq₂ =>
        have := ih
        rw [heq₂] at this
        simp only at this
        simp [sig, hw, ha, hd, this]
      next ns' outs heq₂ =>
        have := ih
        rw [heq₂] at this
        simp only at this
        simp [sig, hw, ha, hd, this]

lemma Layer.process_fst_map_sig (env : Env) (ly : Layer) (ins : List Rat) :
    ((ly.process env ins).1).neurons.map sig = ly.neurons.map sig := by
  unfold Layer.process
  have := layerGo_map_sig env ins ly.neurons
  split
  next ns r heq =>
    rw [heq] at this
    simpa using this

lemma networkGo_map_sig (env : Env) (lys : List Layer) (ins : List Rat)
    (acc : Option (List Rat)) :
    ((networkGo env lys ins acc).1).map (fun ly => ly.neurons.map sig) =
      lys.map (fun ly => ly.neurons.map sig) := by
  induction lys generalizing ins acc with
  | nil => simp [networkGo]
  | cons ly rest ih =>
    unfold networkGo
    split
    next ly' e heq =>
      have := Layer.process_fst_map_sig env ly ins
      rw [heq] at this
      simpa using this
    next ly' outs heq =>
      have h1 := Layer.process_fst_map_sig env ly ins
      rw [heq] at h1
      simp only at h1
      split
      next rest' r heq₂ =>
        have h2 := ih outs (some outs)
        rw [heq₂] at h2
        simpa [h1] using h2

lemma outputGo_map_sig (env : Env) (ns : List Neuron) (ts os : List Rat)
    (acc : Rat) :
    ((outputGo env ns ts os acc).1).map sig = ns.map sig := by
  induction ns generalizing ts os acc with
  | nil => simp [outputGo]
  | cons n ns ih =>
    cases ts with
    | nil => simp [outputGo]
    | cons t ts =>
      cases os with
      | nil => simp [outputGo]
      | cons o os =>
        unfold outputGo
        split
        next e heq => simp [sig]
        next dv heq =>
          dsimp only
          simp only [List.map_cons, ih]
          simp [sig]

lemma updWeights_ok_length {rate err : Rat} {ws lis ws' : List Rat}
    (h : updWeights rate err ws lis = .ok ws') : ws'.length = ws.length := by
  induction ws generalizing lis ws' with
  | nil =>
    unfold updWeights at h
    simp only [Except.ok.injEq] at h
    subst h
    rfl
  | cons w ws ih =>
    cases lis with
    | nil => exact absurd h (by simp [updWeights])
    | cons li lis =>
      unfold updWeights at h
      split at h
      next e heq => exact absurd h (by simp)
      next rest heq =>
        simp only [Except.ok.injEq] at h
        subst h
        simp [ih heq]

lemma updNext_ok_sig {rate : Rat} {m m' : Neuron}
    (h : updNext rate m = .ok m') : sig m' = sig m := by
  unfold updNext at h
  split at h
  next e heq => exact absurd h (by simp)
  next ws heq =>
    simp only [Except.ok.injEq] at h
    subst h
    simpa [sig] using updWeights_ok_length heq

lemma updAll_ok_map_sig {rate : Rat} {ms ms' : List Neuron}
    (h : updAll rate ms = .ok ms') : ms'.map sig = ms.map sig := by
  induction ms generalizing ms' with
  | nil =>
    unfold updAll at h
    simp only [Except.ok.injEq] at h
    subst h
    rfl
  | cons m ms ih =>
    unfold updAll at h
    split at h
    next e heq => exact absurd h (by simp)
    next m₁ heq =>
      split at h
      next e heq₂ => exact absurd h (by simp)
      next ms₁ heq₂ =>
        simp only [Except.ok.injEq] at h
        subst h
        simp [updNext_ok_sig heq, ih heq₂]

lemma lLoop_map_sig (env : Env) (rate : Rat) (snap : Option Neuron)
    (l : Nat) (cs next : List Neuron) :
    ((lLoop env rate snap l cs next).1).map sig = cs.map sig ∧
      ((lLoop env rate snap l cs next).2.1).map sig = next.map sig := by
  induction cs generalizing l next with
  | nil => simp [lLoop]
  | cons c cs ih =>
    unfold lLoop
    split
    next e heq => simp [sig]
    next errL heq =>
      cases snap with
      | none => simp [sig]
      | some s =>
        simp only
        split
        next e heq₂ => simp [sig]
        next dv heq₂ =>
          split
          next e heq₃ => simp [sig]
          next next' heq₃ =>
            dsimp only
            have := ih (l + 1) next'
            simp [sig, this.1, this.2, updAll_ok_map_sig heq₃]

lemma backWalk_map_sig (env : Env) (rate : Rat) (snap : Option Neuron)
    (lys : List Layer) :
    ((backWalk env rate snap lys).1).map (fun ly => ly.neurons.map sig) =
      lys.map (fun ly => ly.neurons.map sig) := by
  induction lys with
  | nil => simp [backWalk]
  | cons ly rest ih =>
    cases rest with
    | nil => simp [backWalk]
    | cons ly₂ rest₂ =>
      unfold backWalk
      rcases hb : backWalk env rate snap (ly₂ :: rest₂) with ⟨rest', oe⟩
      rw [hb] at ih
      simp only at ih
      cases oe with
      | some e => simp only [List.map_cons, ih]
      | none =>
        cases rest' with
        | nil => simp only [List.map_cons, ih]
        | cons nx rest'' =>
          rcases hl : lLoop env rate snap 0 ly.neurons nx.neurons with
            ⟨curN, nxN, oe₂⟩
          have hll := lLoop_map_sig env rate snap 0 ly.neurons nx.neurons
          rw [hl] at hll
          simp only at hll
          have ih' := ih
          simp only [List.map_cons, List.cons.injEq] at ih'
          simp [List.map_cons, hll.1, hll.2, ih'.1, ih'.2, hl]

lemma Network.process_structureOf (env : Env) (net : Network)
    (ins : List Rat) :
    structureOf ((net.process env ins).1) = structureOf net := by
  unfold Network.process structureOf
  rcases h : networkGo env net.layers ins none with ⟨lys, r⟩
  have := networkGo_map_sig env net.layers ins none
  rw [h] at this
  simpa using this

lemma structureOf_layers_length {a b : Network}
    (h : structureOf a = structureOf b) :
    a.layers.length = b.layers.length := by
  have := congrArg List.length h
  simpa [structureOf] using this

/-- C8. Every call to `train` preserves the network's structure: the
number of layers, the number of neurons in each layer, the length of every
neuron's weight vector, and every neuron's activation/derivative function
identities are the same in the network state `train` leaves behind —
whether it returns a loss or raises — as before the call; only weight
values, biases, and the transient per-neuron fields can change. -/
theorem train_preserves_structure (env : Env) (net : Network)
    (inputs targets : List Rat) (rate : Rat) :
    structureOf ((net.train env inputs targets rate).1) = structureOf net := by
  unfold Network.train
  cases hl : net.layers.getLast? with
  | none => rfl
  | some lastLy =>
    rcases hp : net.process env inputs with ⟨net₁, pres⟩
    have hps : structureOf net₁ = structureOf net := by
      have := Network.process_structureOf env net inputs
      rw [hp] at this
      simpa using this
    cases pres with
    | error e => simpa using hps
    | ok r =>
      cases r with
      | none => simpa using hps
      | some outs =>
        dsimp only
        have hne : net₁.layers ≠ [] := by
          intro hcon
          have hlen := structureOf_layers_length hps
          rw [hcon] at hlen
          have : net.layers ≠ [] := by
            intro hcon₂
            rw [hcon₂] at hl
            exact absurd hl (by simp)
          cases hx : net.layers with
          | nil => exact absurd hx this
          | cons a as => rw [hx] at hlen; exact absurd hlen.symm (by simp)
        rcases hog : outputGo env ((net₁.layers.getLast?.getD ⟨[]⟩).neurons)
            targets outs 0 with ⟨outN, lr⟩
        have hon : outN.map sig =
            ((net₁.layers.getLast?.getD ⟨[]⟩).neurons).map sig := by
          have := outputGo_map_sig env
            ((net₁.layers.getLast?.getD ⟨[]⟩).neurons) targets outs 0
          rw [hog] at this
          simpa using this
        have hget : net₁.layers.getLast? = some (net₁.layers.getLast hne) :=
          List.getLast?_eq_getLast_of_ne_nil hne
        have hsplit : net₁.layers.dropLast ++ [net₁.layers.getLast hne] =
            net₁.layers := List.dropLast_append_getLast hne
        have hs₂ : structureOf ⟨net₁.layers.dropLast ++ [(⟨outN⟩ : Layer)]⟩ =
            structureOf net₁ := by
          unfold structureOf
          conv_rhs => rw [← hsplit]
          rw [hget] at hon
          simp only [Option.getD_some] at hon
          simp [hon]
        cases lr with
        | error e => simpa [hs₂] using hps
        | ok loss =>
          dsimp only
          rcases hbw : backWalk env rate outN.getLast?
              (net₁.layers.dropLast ++ [(⟨outN⟩ : Layer)]) with ⟨layers₃, oe⟩
          have hbs := backWalk_map_sig env rate outN.getLast?
            (net₁.layers.dropLast ++ [(⟨outN⟩ : Layer)])
          rw [hbw] at hbs
          simp only at hbs
          have hfin : structureOf ⟨layers₃⟩ = structureOf net := by
            unfold structureOf at hs₂ hps ⊢
            simp only at hs₂ hps ⊢
            rw [hbs, hs₂, hps]
          cases oe with
          | some e => simpa using hfin
          | none => simpa using hfin

/-- A concrete environment used for witnesses and counterexamples: the
abstracted float routines are instantiated with simple rational stand-ins
(every theorem quantified over `Env` holds for it in particular). -/
def envT : Env :=
  ⟨fun _ => 1, fun _ => 0, fun _ _ => 0, fun _ _ => 0, fun _ _ => 0,
    fun _ => 0⟩

/-- A neuron with weight vector `[1.0]`, bias `0.0`, linear activation. -/
def linNeuron : Neuron :=
  { weights := [1], bias := 0, activation := some .linear,
    derive := some .linear }

/-- A neuron with weight vector `[1.0]`, bias `0.0`, sigmoid activation. -/
def sigNeuron : Neuron :=
  { weights := [1], bias := 0, activation := some .sigmoid,
    derive := some .sigmoid }

/-- A single-layer, single-neuron linear network. -/
def net1T : Network := ⟨[⟨[linNeuron]⟩]⟩

/-- A two-layer network: linear neuron feeding a sigmoid output neuron. -/
def net2T : Network := ⟨[⟨[linNeuron]⟩, ⟨[sigNeuron]⟩]⟩

/-- A three-layer network: linear, then sigmoid, then linear output. -/
def net3T : Network := ⟨[⟨[linNeuron]⟩, ⟨[sigNeuron]⟩, ⟨[linNeuron]⟩]⟩

/-- The neuron at layer `i`, position `j` (an inert default when out of
range), for inspecting post-train state. -/
def neuronAt (net : Network) (i j : Nat) : Neuron :=
  (net.layers.getD i ⟨[]⟩).neurons.getD j
    { weights := [], bias := 0, activation := none, derive := none }

/-- C6 counterexample. The claim says `process` on a zero-layer network
fails with an `EmptyNetwork` error; in the source the layer loop simply
never runs and the function returns Python `None` with no exception. -/
theorem process_empty_network_cex :
    Network.process envT ⟨[]⟩ [5] = (⟨[]⟩, .ok none) := rfl

/-- C6 amended. For every network with zero layers and every input vector,
`process(inputs)` raises nothing and returns Python `None` (no output
vector), leaving the network untouched. -/
theorem process_empty_network_returns_none (env : Env) (net : Network)
    (inputs : List Rat) (h : net.layers = []) :
    net.process env inputs = (net, .ok none) := by
  rcases net with ⟨lys⟩
  simp only at h
  subst h
  rfl

/-- C6 witness: the amended theorem applied to the empty network. -/
theorem process_empty_network_returns_none_witness :
    Network.process envT ⟨[]⟩ [2] = (⟨[]⟩, .ok none) :=
  process_empty_network_returns_none envT ⟨[]⟩ [2] rfl

/-- C4 counterexample. The claim says `train` fails with `EmptyNetwork`
for every network with fewer than 2 layers; but on this 1-layer network
(one linear neuron, weights `[1.0]`, bias `0.0`) `train([5],[3],1)`
completes normally and returns the loss `0.5 * (3 - 5)^2 = 2`: the
backward loop `range(len(layers) - 2, -1, -1)` is empty, so nothing below
the output layer is ever indexed. -/
theorem train_single_layer_succeeds_cex :
    net1T.layers.length = 1 ∧
      Network.train envT net1T [5] [3] 1 =
        (⟨[⟨[{ weights := [1], bias := 0, activation := some .linear,
               derive := some .linear, last_input := [5], last_output := 5,
               error := -2, delta := -2 }]⟩]⟩, .ok 2) :=
  ⟨rfl, by with_unfolding_all rfl⟩

/-- C4 amended. `train` fails only when the network has zero layers — the
`self.layers[-1]` lookup raises an `IndexError` before anything else runs;
with exactly one layer the hidden-layer loop body never executes and
`train` completes normally. -/
theorem train_empty_network_index_error (env : Env) (net : Network)
    (inputs targets : List Rat) (rate : Rat) (h : net.layers = []) :
    net.train env inputs targets rate = (net, .error .indexError) := by
  rcases net with ⟨lys⟩
  simp only at h
  subst h
  rfl

/-- C4 witness: the amended theorem applied to the empty network. -/
theorem train_empty_network_index_error_witness :
    Network.train envT ⟨[]⟩ [1] [1] 1 = (⟨[]⟩, .error .indexError) :=
  train_empty_network_index_error envT ⟨[]⟩ [1] [1] 1 rfl

/-- C9. Calling `add_layer` with `num_inputs` unspecified on a network
with no layers fails: `self.layers[-1]` raises an `IndexError` before any
layer is constructed, so no layer with a defaulted input width is ever
appended. -/
theorem add_layer_empty_network_fails (env : Env) (net : Network)
    (numNeurons : Nat) (act? : Option ActId) (h : net.layers = []) :
    net.add_layer env numNeurons none act? = .error .indexError := by
  rcases net with ⟨lys⟩
  simp only at h
  subst h
  rfl

/-- C9 witness: the theorem applied to the empty network. -/
theorem add_layer_empty_network_fails_witness :
    Network.add_layer envT ⟨[]⟩ 3 none none = .error .indexError :=
  add_layer_empty_network_fails envT ⟨[]⟩ 3 none rfl

/-- The document of the malformed-file scenario:
`{"layers": [{"neurons": [{"weights": [0.1], "bias": 0,
"activation": 99}]}]}` with the unknown activation tag 99. -/
def doc99 : Json :=
  .obj [("layers", .arr [.obj [("neurons", .arr [.obj
    [("weights", .arr [.num (1 / 10)]), ("bias", .num 0),
     ("activation", .num 99)]])]])]

/-- C5 counterexample. The claim says `load` fails with `InvalidModelFile`
on a document with activation tag 99; in the source the tag-resolution
if/elif chain simply falls through, no exception is raised, and `load`
returns a network whose single neuron has weights `[0.1]`, bias `0`, and
Python `None` for both its activation and its derivative. -/
theorem load_unknown_tag_succeeds_cex :
    Network.load "model.json" (.ok doc99) =
      .ok ⟨[⟨[{ weights := [1 / 10], bias := 0, activation := none,
                derive := none }]⟩]⟩ := by
  with_unfolding_all rfl

/-- C5 amended. Whenever `load` does raise, the bare `except:` collapses
the failure — missing/unreadable file, unparsable text, or any exception
inside the reconstruction — into the single wrapped `InvalidModelFile`
error carrying the source path; but an unknown activation tag is not a
failure: `load` then succeeds with a network whose neuron has no
activation/derivative function (which only breaks later, at `process` or
`train` time). -/
theorem load_error_is_invalid_model_file (path : String)
    (r : Except Err Json) (e : Err) (h : Network.load path r = .error e) :
    e = .invalidModelFile path := by
  unfold Network.load at h
  cases r with
  | error e₂ =>
    simp only [Except.error.injEq] at h
    exact h.symm
  | ok j =>
    dsimp only at h
    cases hd : decodeNetwork j with
    | error e₂ =>
      rw [hd] at h
      simp only [Except.error.injEq] at h
      exact h.symm
    | ok net =>
      rw [hd] at h
      exact absurd h (by simp)

/-- C5 witness: the amended theorem applied to a failed read. -/
theorem load_error_is_invalid_model_file_witness :
    Err.invalidModelFile "missing.json" = Err.invalidModelFile "missing.json" :=
  load_error_is_invalid_model_file "missing.json" (.error .keyError)
    (.invalidModelFile "missing.json") rfl

/-- C10. For every network containing a neuron whose activation is not one
of the four registry functions, `save` succeeds — the tag conversion
`actEnum` is total, so no `UnknownActivation` or other error exists on
this path — and the saved document records that neuron's `"activation"`
field as JSON `null` (Python `None` serialized) instead of a tag in
`{0,1,2,3}`. -/
theorem save_unregistered_activation_null (net : Network) (i j : Nat)
    (ly : Layer) (n : Neuron) (hi : net.layers[i]? = some ly)
    (hj : ly.neurons[j]? = some n) (hu : actEnum n.activation = none) :
    jget net.save "layers" = .ok (.arr (net.layers.map encodeLayer)) ∧
      (net.layers.map encodeLayer)[i]? = some (encodeLayer ly) ∧
      jget (encodeLayer ly) "neurons" =
        .ok (.arr (ly.neurons.map encodeNeuron)) ∧
      (ly.neurons.map encodeNeuron)[j]? = some (encodeNeuron n) ∧
      jget (encodeNeuron n) "activation" = .ok .null := by
  refine ⟨rfl, ?_, rfl, ?_, ?_⟩
  · simp [List.getElem?_map, hi]
  · simp [List.getElem?_map, hj]
  · unfold encodeNeuron jget
    rw [hu]
    rfl

/-- A neuron whose activation is a function object outside the registry
(`other 0`), as `add_layer` builds when handed an unrecognized activation
callable (its derivative then stays `None`). -/
def neuronO : Neuron :=
  { weights := [2], bias := 3, activation := some (.other 0),
    derive := none }

/-- A single-layer network holding only `neuronO`. -/
def netO : Network := ⟨[⟨[neuronO]⟩]⟩

/-- C10 witness: the theorem applied to `netO` at layer 0, neuron 0. -/
theorem save_unregistered_activation_null_witness :
    jget netO.save "layers" = .ok (.arr (netO.layers.map encodeLayer)) ∧
      (netO.layers.map encodeLayer)[0]? = some (encodeLayer ⟨[neuronO]⟩) ∧
      jget (encodeLayer ⟨[neuronO]⟩) "neurons" =
        .ok (.arr ([neuronO].map encodeNeuron)) ∧
      ([neuronO].map encodeNeuron)[0]? = some (encodeNeuron neuronO) ∧
      jget (encodeNeuron neuronO) "activation" = .ok .null :=
  save_unregistered_activation_null netO 0 0 ⟨[neuronO]⟩ neuronO rfl rfl rfl

lemma updWeights_ok_eq (rate err : Rat) :
    ∀ ws lis : List Rat, ws.length ≤ lis.length →
      updWeights rate err ws lis =
        .ok (List.zipWith (fun w li => w + rate * li * err) ws lis) := by
  intro ws
  induction ws with
  | nil => intro lis h; simp [updWeights]
  | cons w ws ih =>
    intro lis h
    cases lis with
    | nil => simp at h
    | cons li lis =>
      simp only [List.length_cons, Nat.add_le_add_iff_right] at h
      unfold updWeights
      rw [ih lis h]
      simp

/-- C2 amended. The body of the next-layer update loop of `train`
(lines 148-157), `updNext`, acting on a next-layer neuron `m`: every
weight `n` is updated as
`weight[n] += learnRate * lastInput_m[n] * error_m` — using neuron `m`'s
own error, exactly as claimed — but the bias is updated as
`bias_m += learnRate * delta_m`, using neuron `m`'s OWN `delta`
(line 157 reads `neuron_m.delta`), not the `delta_l` of the final
current-layer neuron `l`. -/
theorem train_next_layer_update_formula (rate : Rat) (m : Neuron)
    (h : m.weights.length ≤ m.last_input.length) :
    updNext rate m =
      .ok { m with
        weights := List.zipWith (fun w li => w + rate * li * m.error)
          m.weights m.last_input,
        bias := m.bias + rate * m.delta } := by
  unfold updNext
  rw [updWeights_ok_eq rate m.error m.weights m.last_input h]

/-- A concrete next-layer neuron for the C2 witness: weights `[1, 2]`,
bias `10`, `last_input = [3, 4]`, `error = 5`, `delta = 7`. -/
def mW : Neuron :=
  { weights := [1, 2], bias := 10, activation := some .linear,
    derive := some .linear, last_input := [3, 4], last_output := 0,
    error := 5, delta := 7 }

/-- C2 witness: the amended theorem applied to `mW` with learning rate 2:
weights become `[1 + 2*3*5, 2 + 2*4*5] = [31, 42]`, bias becomes
`10 + 2*7 = 24` (the neuron's own delta). -/
theorem train_next_layer_update_formula_witness :
    updNext 2 mW =
      .ok { mW with weights := [31, 42], bias := 24 } := by
  have := train_next_layer_update_formula 2 mW (by decide)
  rw [this]
  with_unfolding_all rfl

/-- C2 counterexample. On the two-layer network `net2T` (linear neuron
feeding a sigmoid output neuron), `train([1],[1],1)` under `envT` leaves
the output neuron with bias `1/8` — its own
`delta_m = sigmoid_deriv(1/2) * error_m = 1/8` times the learning rate —
while the last (and only) current-layer neuron's `delta_l` is `1/32`, so
the claimed update `bias_m += learnRate * delta_l` would have produced
`0 + 1 * 1/32 = 1/32 ≠ 1/8`. -/
theorem train_bias_uses_own_delta_cex :
    (neuronAt (Network.train envT net2T [1] [1] 1).1 1 0).bias = 1 / 8 ∧
      (neuronAt (Network.train envT net2T [1] [1] 1).1 0 0).delta = 1 / 32 ∧
      ((1 : Rat) / 8 ≠ 0 + 1 * (1 / 32)) :=
  ⟨by with_unfolding_all rfl, by with_unfolding_all rfl, by norm_num⟩

lemma nextErrSum_ok_eq :
    ∀ (ms : List Neuron) (l : Nat), (∀ m ∈ ms, l < m.weights.length) →
      nextErrSum ms l =
        .ok ((ms.map fun m => m.weights.getD l 0 * m.delta).sum) := by
  intro ms
  induction ms with
  | nil => intro l h; simp [nextErrSum]
  | cons m ms ih =>
    intro l h
    have hm : l < m.weights.length := h m (List.mem_cons_self m ms)
    have hrest : ∀ m₂ ∈ ms, l < m₂.weights.length := by
      intro m₂ hmem
      exact h m₂ (List.mem_cons_of_mem m hmem)
    unfold nextErrSum
    have hget : m.weights.get? l = some (m.weights.getD l 0) := by
      rw [List.get?_eq_getElem?, List.getD_eq_getElem?_getD]
      rw [List.getElem?_eq_getElem hm]
      rfl
    rw [hget, ih l hrest]
    simp

/-- C3 amended. The hidden-layer loop body of `train` (lines 139-145),
as run by `lLoop` on current-layer neurons `c :: cs`: neuron `c`'s error
is set to `Σ_over_next_layer_neurons(weight_of_that_neuron_at_index_l *
that_neuron's_delta)` — exactly as claimed — and its delta is set to that
error multiplied by `dv`, the derivative value of the SNAPSHOT neuron `s`.
In `train`, `s` is the last neuron of the OUTPUT layer — the Python
variable `neuron` still bound by the output-layer loop of line 127 (the
line-142 list comprehension has its own scope in Python 3) — and stays
fixed for the entire backward walk; it is not the last-iterated neuron of
the next layer, as the claim states. -/
theorem hidden_error_delta_formula (env : Env) (rate : Rat) (s : Neuron)
    (next : List Neuron) (l : Nat) (c : Neuron) (cs : List Neuron)
    (dv : Rat) (hb : ∀ m ∈ next, l < m.weights.length)
    (hd : applyDeriv env s.derive s.last_output = .ok dv) :
    ((lLoop env rate (some s) l (c :: cs) next).1).head? =
      some { c with
        error := (next.map fun m => m.weights.getD l 0 * m.delta).sum,
        delta := dv * (next.map fun m => m.weights.getD l 0 * m.delta).sum } := by
  unfold lLoop
  rw [nextErrSum_ok_eq next l hb]
  dsimp only
  rw [hd]
  dsimp only
  cases hu : updAll rate next with
  | error e => rfl
  | ok next' =>
    dsimp only
    cases hl : lLoop env rate (some s) (l + 1) cs next' with
    | mk cs' p => rfl

/-- The snapshot neuron for the C3 witness: sigmoid derivative with
`last_output = 1/2`, so its derivative value is `1/2 * (1 - 1/2) = 1/4`. -/
def sW : Neuron :=
  { weights := [1], bias := 0, activation := some .sigmoid,
    derive := some .sigmoid, last_input := [], last_output := 1 / 2,
    error := 0, delta := 0 }

/-- The next-layer neuron for the C3 witness: weight `2` at index 0 and
delta `3`. -/
def nxW : Neuron :=
  { weights := [2], bias := 0, activation := some .linear,
    derive := some .linear, last_input := [0], last_output := 0,
    error := 0, delta := 3 }

/-- C3 witness: the amended theorem applied concretely: the current-layer
neuron gets `error = 2 * 3 = 6` and `delta = 1/4 * 6 = 3/2`. -/
theorem hidden_error_delta_formula_witness :
    ((lLoop envT 1 (some sW) 0 [linNeuron] [nxW]).1).head? =
      some { linNeuron with error := 6, delta := 3 / 2 } := by
  have := hidden_error_delta_formula envT 1 sW [nxW] 0 linNeuron [] (1 / 4)
    (by intro m hm; simp at hm; subst hm; decide)
    (by with_unfolding_all rfl)
  rw [this]
  with_unfolding_all rfl

/-- C3 counterexample. On the three-layer network `net3T` (linear, then
sigmoid, then linear output), `train([1],[3/2],0)` under `envT` stores
`delta = 1` on the first-layer neuron: the code multiplies its error (1)
by the derivative of the OUTPUT layer's last neuron (linear, value 1).
The claim's formula — the derivative of the last-iterated NEXT-layer
neuron, i.e. the layer-1 sigmoid neuron with `last_output = 1/2`, whose
derivative value is `1/4` — would have produced `1/4 * 1 = 1/4 ≠ 1`. -/
theorem train_hidden_delta_snapshot_cex :
    (neuronAt (Network.train envT net3T [1] [3 / 2] 0).1 0 0).delta = 1 ∧
      (neuronAt (Network.train envT net3T [1] [3 / 2] 0).1 0 0).error = 1 ∧
      (neuronAt (Network.train envT net3T [1] [3 / 2] 0).1 1 0).derive =
        some .sigmoid ∧
      (neuronAt (Network.train envT net3T [1] [3 / 2] 0).1 1 0).last_output =
        1 / 2 ∧
      applyDeriv envT (some .sigmoid) (1 / 2) = .ok (1 / 4) ∧
      (1 : Rat) ≠ 1 / 4 * 1 :=
  ⟨by with_unfolding_all rfl, by with_unfolding_all rfl,
   by with_unfolding_all rfl, by with_unfolding_all rfl,
   by with_unfolding_all rfl, by norm_num⟩

lemma getLast?_map_aux {α β : Type} (f : α → β) :
    ∀ l : List α, (l.map f).getLast? = l.getLast?.map f := by
  intro l
  induction l with
  | nil => rfl
  | cons a l ih =>
    cases l with
    | nil => rfl
    | cons b l => simpa [List.getLast?_cons_cons] using ih

lemma layerGo_ok_out_length {env : Env} {ins : List Rat} {ns ns' : List Neuron}
    {outs : List Rat} (h : layerGo env ins ns = (ns', .ok outs)) :
    outs.length = ns.length := by
  induction ns generalizing ns' outs with
  | nil =>
    unfold layerGo at h
    simp only [Prod.mk.injEq, Except.ok.injEq] at h
    rw [← h.2]
    rfl
  | cons n ns ih =>
    unfold layerGo at h
    split at h
    next e heq => simp at h
    next n₁ out heq =>
      split at h
      next ns₁ e heq₂ => simp at h
      next ns₁ outs₁ heq₂ =>
        simp only [Prod.mk.injEq, Except.ok.injEq] at h
        rw [← h.2]
        simpa using ih heq₂

lemma networkGo_ok_some {env : Env} {lys lys' : List Layer} {ins : List Rat}
    {acc : Option (List Rat)} {r : Option (List Rat)}
    (h : networkGo env lys ins acc = (lys', .ok r)) (hne : lys ≠ []) :
    ∃ outs ly, r = some outs ∧ lys.getLast? = some ly ∧
      outs.length = ly.neurons.length := by
  induction lys generalizing lys' ins acc with
  | nil => exact absurd rfl hne
  | cons ly rest ih =>
    unfold networkGo at h
    split at h
    next ly₁ e heq => simp at h
    next ly₁ outs₁ heq =>
      split at h
      next rest₁ r₁ heq₂ =>
        simp only [Prod.mk.injEq] at h
        cases rest with
        | nil =>
          unfold networkGo at heq₂
          simp only [Prod.mk.injEq, Except.ok.injEq] at heq₂
          refine ⟨outs₁, ly, ?_, rfl, ?_⟩
          · have h5 := heq₂.2.trans h.2
            simp only [Except.ok.injEq] at h5
            exact h5.symm
          · unfold Layer.process at heq
            split at heq
            next ns r₂ heq₃ =>
              simp only [Prod.mk.injEq] at heq
              have : layerGo env ins ly.neurons = (ns, .ok outs₁) := by
                rw [heq₃, heq.2]
              exact layerGo_ok_out_length this
        | cons ly₂ rest₂ =>
          have hr : networkGo env (ly₂ :: rest₂) outs₁ (some outs₁) =
              (rest₁, .ok r) := by
            rw [heq₂, h.2]
          obtain ⟨outs, lyL, h1, h2, h3⟩ := ih hr (by simp)
          exact ⟨outs, lyL, h1, by simpa [List.getLast?_cons_cons] using h2, h3⟩

lemma outputGo_ok_loss {env : Env} :
    ∀ (ns : List Neuron) (ts os : List Rat) (acc : Rat)
      (ns' : List Neuron) (L : Rat), ts.length = ns.length →
      os.length = ns.length → outputGo env ns ts os acc = (ns', .ok L) →
      L = acc + (List.zipWith (fun t o => 1 / 2 * (t - o) ^ 2) ts os).sum := by
  intro ns
  induction ns with
  | nil =>
    intro ts os acc ns' L ht ho h
    rw [List.length_nil, List.length_eq_zero] at ht ho
    subst ht; subst ho
    unfold outputGo at h
    simp only [Prod.mk.injEq, Except.ok.injEq] at h
    simp [← h.2]
  | cons n ns ih =>
    intro ts os acc ns' L ht ho h
    cases ts with
    | nil => simp at ht
    | cons t ts =>
      cases os with
      | nil => simp at ho
      | cons o os =>
        simp only [List.length_cons, Nat.add_right_cancel_iff] at ht ho
        unfold outputGo at h
        split at h
        next e heq => simp at h
        next dv heq =>
          dsimp only at h
          rcases hog : outputGo env ns ts os (acc + 1 / 2 * (t - o) ^ 2) with
            ⟨ns₁, r⟩
          rw [hog] at h
          simp only [Prod.mk.injEq] at h
          have hr : outputGo env ns ts os (acc + 1 / 2 * (t - o) ^ 2) =
              (ns₁, .ok L) := by
            rw [hog, h.2]
          have := ih ts os (acc + 1 / 2 * (t - o) ^ 2) ns₁ L ht ho hr
          rw [this]
          simp only [List.zipWith_cons_cons, List.sum_cons]
          ring

lemma zipWith_half_sum (ts os : List Rat) :
    (List.zipWith (fun t o => 1 / 2 * (t - o) ^ 2) ts os).sum =
      1 / 2 * (List.zipWith (fun t o => (t - o) ^ 2) ts os).sum := by
  induction ts generalizing os with
  | nil => simp
  | cons t ts ih =>
    cases os with
    | nil => simp
    | cons o os =>
      simp only [List.zipWith_cons_cons, List.sum_cons, ih os]
      ring

lemma structureOf_last_neurons_length {a b : Network}
    (h : structureOf a = structureOf b) :
    (a.layers.getLast?.getD ⟨[]⟩).neurons.length =
      (b.layers.getLast?.getD ⟨[]⟩).neurons.length := by
  have hm := congrArg List.getLast? h
  rw [structureOf, structureOf, getLast?_map_aux, getLast?_map_aux] at hm
  cases ha : a.layers.getLast? with
  | none =>
    cases hb : b.layers.getLast? with
    | none => simp
    | some ly₂ => rw [ha, hb] at hm; simp at hm
  | some ly =>
    cases hb : b.layers.getLast? with
    | none => rw [ha, hb] at hm; simp at hm
    | some ly₂ =>
      rw [ha, hb] at hm
      simp only [Option.map_some', Option.some.injEq] at hm
      have := congrArg List.length hm
      simpa using this

/-- C7. Whenever `train(inputs, targets, learnRate)` returns a loss on a
network with at least one layer, with `targets` as long as the output
layer, that loss is exactly `0.5 * Σ_k (targets[k] - outputs[k])^2`
summed over the output layer's neurons, where `outputs` is what
`process(inputs)` produced for this example. -/
theorem train_returns_half_sum_squared_error (env : Env) (net : Network)
    (inputs targets : List Rat) (rate : Rat) (net' net₁ : Network)
    (outs : List Rat) (L : Rat) (hne : net.layers ≠ [])
    (hp : net.process env inputs = (net₁, .ok (some outs)))
    (hlen : targets.length = (net.layers.getLast hne).neurons.length)
    (ht : net.train env inputs targets rate = (net', .ok L)) :
    L = 1 / 2 * (List.zipWith (fun t o => (t - o) ^ 2) targets outs).sum := by
  unfold Network.train at ht
  rw [List.getLast?_eq_getLast_of_ne_nil hne] at ht
  dsimp only at ht
  rw [hp] at ht
  dsimp only at ht
  have hp₂ := hp
  unfold Network.process at hp₂
  rcases hg : networkGo env net.layers inputs none with ⟨lys₁, r₁⟩
  rw [hg] at hp₂
  simp only [Prod.mk.injEq] at hp₂
  have hgo : networkGo env net.layers inputs none = (lys₁, .ok (some outs)) := by
    rw [hg, hp₂.2]
  obtain ⟨outs₂, lyL, he1, he2, he3⟩ := networkGo_ok_some hgo hne
  have he1' : outs₂ = outs := by
    simp only [Option.some.injEq] at he1
    exact he1.symm
  rw [List.getLast?_eq_getLast_of_ne_nil hne] at he2
  simp only [Option.some.injEq] at he2
  have houts : outs.length = (net.layers.getLast hne).neurons.length := by
    rw [← he1', he3, ← he2]
  have hstruct : structureOf net₁ = structureOf net := by
    have := Network.process_structureOf env net inputs
    rw [hp] at this
    simpa using this
  have hcount : (net₁.layers.getLast?.getD ⟨[]⟩).neurons.length =
      (net.layers.getLast hne).neurons.length := by
    rw [structureOf_last_neurons_length hstruct,
      List.getLast?_eq_getLast_of_ne_nil hne]
    rfl
  rcases hog : outputGo env ((net₁.layers.getLast?.getD ⟨[]⟩).neurons)
      targets outs 0 with ⟨outN, lr⟩
  rw [hog] at ht
  cases lr with
  | error e => simp at ht
  | ok loss =>
    dsimp only at ht
    rcases hbw : backWalk env rate outN.getLast?
        (net₁.layers.dropLast ++ [(⟨outN⟩ : Layer)]) with ⟨l₃, oe⟩
    rw [hbw] at ht
    cases oe with
    | some e => simp at ht
    | none =>
      simp only [Prod.mk.injEq, Except.ok.injEq] at ht
      have hL : loss = L := ht.2
      have hloss := outputGo_ok_loss ((net₁.layers.getLast?.getD ⟨[]⟩).neurons)
        targets outs 0 outN loss
        (by rw [hlen, hcount]) (by rw [houts, hcount]) hog
      rw [← hL, hloss, zipWith_half_sum]
      ring

/-- The state of `net1T` after `train([5],[3],1)`. -/
def net1Trained : Network :=
  ⟨[⟨[{ linNeuron with
        last_input := [5], last_output := 5, error := -2,
        delta := -2 }]⟩]⟩

/-- The state of `net1T` after `process([5])`. -/
def net1Processed : Network :=
  ⟨[⟨[{ linNeuron with last_input := [5], last_output := 5 }]⟩]⟩

/-- C7 witness: on the 1-layer linear network, `train([5],[3],1)` returns
`2 = 0.5 * (3 - 5)^2`. -/
theorem train_returns_half_sum_squared_error_witness :
    (2 : Rat) = 1 / 2 * (List.zipWith (fun t o => (t - o) ^ 2)
      [(3 : Rat)] [5]).sum :=
  train_returns_half_sum_squared_error envT net1T [5] [3] 1
    net1Trained net1Processed [5] 2 (by simp [net1T])
    (by with_unfolding_all rfl) rfl (by with_unfolding_all rfl)

/-- The network `load` reconstructs from `save`'s document: weights, bias
and activation are carried over verbatim, the derivative is re-paired with
the activation by tag, and the transient fields are back at their
constructor defaults. -/
def reloadNeuron (n : Neuron) : Neuron :=
  { weights := n.weights, bias := n.bias, activation := n.activation,
    derive := n.activation }

/-- `reloadNeuron` applied throughout a network. -/
def reloadNet (net : Network) : Network :=
  ⟨net.layers.map fun ly => ⟨ly.neurons.map reloadNeuron⟩⟩

lemma jnumsList_map_num (ws : List Rat) :
    jnumsList (ws.map Json.num) = .ok ws := by
  induction ws with
  | nil => rfl
  | cons w ws ih => simp [jnumsList, jnum, ih]

lemma jnums_encode (ws : List Rat) :
    jnums (.arr (ws.map Json.num)) = .ok ws := by
  unfold jnums jarr
  exact jnumsList_map_num ws

lemma jget_encodeNeuron_weights (n : Neuron) :
    jget (encodeNeuron n) "weights" = .ok (.arr (n.weights.map Json.num)) :=
  rfl

lemma jget_encodeNeuron_bias (n : Neuron) :
    jget (encodeNeuron n) "bias" = .ok (.num n.bias) := rfl

lemma decode_encode_neuron (n : Neuron)
    (h : (actEnum n.activation).isSome) :
    decodeNeuron (encodeNeuron n) = .ok (reloadNeuron n) := by
  obtain ⟨ws, b, act, der, li, lo, er, de⟩ := n
  cases act with
  | none => simp [actEnum] at h
  | some a =>
    cases a with
    | other i => simp [actEnum] at h
    | linear =>
      have h1 : decodeNeuron (encodeNeuron ⟨ws, b, some .linear, der, li, lo,
          er, de⟩) =
          (match jnums (.arr (ws.map Json.num)) with
           | .error e => .error e
           | .ok w => .ok { weights := w, bias := b,
                             activation := some ActId.linear,
                             derive := some ActId.linear }) := by
        with_unfolding_all rfl
      rw [h1, jnums_encode]
      rfl
    | sigmoid =>
      have h1 : decodeNeuron (encodeNeuron ⟨ws, b, some .sigmoid, der, li, lo,
          er, de⟩) =
          (match jnums (.arr (ws.map Json.num)) with
           | .error e => .error e
           | .ok w => .ok { weights := w, bias := b,
                             activation := some ActId.sigmoid,
                             derive := some ActId.sigmoid }) := by
        with_unfolding_all rfl
      rw [h1, jnums_encode]
      rfl
    | tanh =>
      have h1 : decodeNeuron (encodeNeuron ⟨ws, b, some .tanh, der, li, lo,
          er, de⟩) =
          (match jnums (.arr (ws.map Json.num)) with
           | .error e => .error e
           | .ok w => .ok { weights := w, bias := b,
                             activation := some ActId.tanh,
                             derive := some ActId.tanh }) := by
        with_unfolding_all rfl
      rw [h1, jnums_encode]
      rfl
    | step =>
      have h1 : decodeNeuron (encodeNeuron ⟨ws, b, some .step, der, li, lo,
          er, de⟩) =
          (match jnums (.arr (ws.map Json.num)) with
           | .error e => .error e
           | .ok w => .ok { weights := w, bias := b,
                             activation := some ActId.step,
                             derive := some ActId.step }) := by
        with_unfolding_all rfl
      rw [h1, jnums_encode]
      rfl

lemma decodeNeurons_encode (ns : List Neuron)
    (h : ∀ n ∈ ns, (actEnum n.activation).isSome) :
    decodeNeurons (ns.map encodeNeuron) = .ok (ns.map reloadNeuron) := by
  induction ns with
  | nil => rfl
  | cons n ns ih =>
    have hn : (actEnum n.activation).isSome := h n (List.mem_cons_self n ns)
    have hrest : ∀ m ∈ ns, (actEnum m.activation).isSome := fun m hm =>
      h m (List.mem_cons_of_mem n hm)
    rw [List.map_cons, List.map_cons]
    unfold decodeNeurons
    rw [decode_encode_neuron n hn, ih hrest]

lemma decode_encode_layer (ly : Layer)
    (h : ∀ n ∈ ly.neurons, (actEnum n.activation).isSome) :
    decodeLayer (encodeLayer ly) = .ok ⟨ly.neurons.map reloadNeuron⟩ := by
  have h1 : decodeLayer (encodeLayer ly) =
      (match decodeNeurons (ly.neurons.map encodeNeuron) with
       | .error e => .error e
       | .ok neurons => .ok (⟨neurons⟩ : Layer)) := by
    with_unfolding_all rfl
  rw [h1, decodeNeurons_encode ly.neurons h]

lemma decodeLayers_encode (lys : List Layer)
    (h : ∀ ly ∈ lys, ∀ n ∈ ly.neurons, (actEnum n.activation).isSome) :
    decodeLayers (lys.map encodeLayer) =
      .ok (lys.map fun ly => (⟨ly.neurons.map reloadNeuron⟩ : Layer)) := by
  induction lys with
  | nil => rfl
  | cons ly lys ih =>
    have hl := h ly (List.mem_cons_self ly lys)
    have hrest : ∀ ly₂ ∈ lys, ∀ n ∈ ly₂.neurons, (actEnum n.activation).isSome :=
      fun ly₂ hm => h ly₂ (List.mem_cons_of_mem ly hm)
    rw [List.map_cons, List.map_cons]
    unfold decodeLayers
    rw [decode_encode_layer ly hl, ih hrest]

lemma load_save_eq (path : String) (net : Network)
    (h : ∀ ly ∈ net.layers, ∀ n ∈ ly.neurons, (actEnum n.activation).isSome) :
    Network.load path (.ok net.save) = .ok (reloadNet net) := by
  have h1 : Network.load path (.ok net.save) =
      (match decodeNetwork net.save with
       | .error _ => .error (Err.invalidModelFile path)
       | .ok n => .ok n) := rfl
  have h2 : decodeNetwork net.save =
      (match decodeLayers (net.layers.map encodeLayer) with
       | .error e => .error e
       | .ok lys => .ok (⟨lys⟩ : Network)) := by
    with_unfolding_all rfl
  rw [h1, h2, decodeLayers_encode net.layers h]
  rfl

/-- Observational equality of neurons for the forward pass: `process`
reads only the weights, the bias, and the activation function. -/
def obsEq (a b : Neuron) : Prop :=
  a.weights = b.weights ∧ a.bias = b.bias ∧ a.activation = b.activation

lemma Neuron.process_snd_obsEq (env : Env) (ins : List Rat) {a b : Neuron}
    (h : obsEq a b) :
    (a.process env ins).map Prod.snd = (b.process env ins).map Prod.snd := by
  obtain ⟨hw, hb, ha⟩ := h
  unfold Neuron.process
  rw [hw, hb, ha]
  by_cases hc : ins.length = b.weights.length
  · rw [if_pos hc, if_pos hc]
    cases happ : applyAct env b.activation
        ((List.zipWith (fun w x => w * x) b.weights ins).sum + b.bias) with
    | error e => rfl
    | ok out => rfl
  · rw [if_neg hc, if_neg hc]

lemma layerGo_snd_obsEq (env : Env) (ins : List Rat) {as bs : List Neuron}
    (h : List.Forall₂ obsEq as bs) :
    (layerGo env ins as).2 = (layerGo env ins bs).2 := by
  induction h with
  | nil => rfl
  | cons ha htail ih =>
    rename_i a b as₂ bs₂
    unfold layerGo
    have hsnd := Neuron.process_snd_obsEq env ins ha
    cases h1 : a.process env ins with
    | error e =>
      cases h2 : b.process env ins with
      | error f =>
        rw [h1, h2] at hsnd
        simp only [Except.map] at hsnd
        injection hsnd with hef
        subst hef
        rfl
      | ok q => rw [h1, h2] at hsnd; simp [Except.map] at hsnd
    | ok p =>
      cases h2 : b.process env ins with
      | error f => rw [h1, h2] at hsnd; simp [Except.map] at hsnd
      | ok q =>
        rw [h1, h2] at hsnd
        simp only [Except.map, Except.ok.injEq] at hsnd
        obtain ⟨p₁, x⟩ := p
        obtain ⟨q₁, y⟩ := q
        simp only at hsnd
        subst hsnd
        dsimp only
        rcases hg₁ : layerGo env ins as₂ with ⟨ns₁, r₁⟩
        rcases hg₂ : layerGo env ins bs₂ with ⟨ns₂, r₂⟩
        have : r₁ = r₂ := by
          have := ih
          rw [hg₁, hg₂] at this
          exact this
        subst this
        cases r₁ with
        | error e => rfl
        | ok outs => rfl

lemma networkGo_snd_obsEq (env : Env) {as bs : List Layer}
    (h : List.Forall₂ (fun l₁ l₂ => List.Forall₂ obsEq l₁.neurons l₂.neurons)
      as bs) :
    ∀ (ins : List Rat) (acc : Option (List Rat)),
      (networkGo env as ins acc).2 = (networkGo env bs ins acc).2 := by
  induction h with
  | nil => intro ins acc; rfl
  | cons hl htail ih =>
    rename_i l₁ l₂ as₂ bs₂
    intro ins acc
    unfold networkGo
    rcases hp₁ : l₁.process env ins with ⟨l₁', r₁⟩
    rcases hp₂ : l₂.process env ins with ⟨l₂', r₂⟩
    have hr : r₁ = r₂ := by
      have hs : (l₁.process env ins).2 = (l₂.process env ins).2 := by
        unfold Layer.process
        rcases hg₁ : layerGo env ins l₁.neurons with ⟨ns₁, s₁⟩
        rcases hg₂ : layerGo env ins l₂.neurons with ⟨ns₂, s₂⟩
        have := layerGo_snd_obsEq env ins hl
        rw [hg₁, hg₂] at this
        simpa using this
      rw [hp₁, hp₂] at hs
      exact hs
    subst hr
    cases r₁ with
    | error e => rfl
    | ok outs =>
      dsimp only
      rcases hn₁ : networkGo env as₂ outs (some outs) with ⟨x₁, y₁⟩
      rcases hn₂ : networkGo env bs₂ outs (some outs) with ⟨x₂, y₂⟩
      have := ih outs (some outs)
      rw [hn₁, hn₂] at this
      simpa using this

lemma forall₂_reload (ns : List Neuron) :
    List.Forall₂ obsEq (ns.map reloadNeuron) ns := by
  induction ns with
  | nil => simp
  | cons n ns ih =>
    rw [List.map_cons]
    exact List.Forall₂.cons ⟨rfl, rfl, rfl⟩ ih

lemma forall₂_reload_layers (lys : List Layer) :
    List.Forall₂ (fun l₁ l₂ => List.Forall₂ obsEq l₁.neurons l₂.neurons)
      ((reloadNet ⟨lys⟩).layers) lys := by
  induction lys with
  | nil => simp [reloadNet]
  | cons ly lys ih =>
    simp only [reloadNet, List.map_cons] at ih ⊢
    exact List.Forall₂.cons (forall₂_reload ly.neurons) ih

/-- C1. Round-trip: for every network whose neurons all carry one of the
four registry activation functions — whatever the weights and biases,
including states produced by `train`'s in-place mutation — `load` applied
to the document `save` wrote reconstructs the network exactly (weights and
bias verbatim, activation and derivative re-resolved from the tag, and the
transient fields at constructor defaults), and the reconstructed network's
`process(x)` result is identical to the original's for every input `x`
(same outputs, and the same exception if one is raised). -/
theorem save_load_roundtrip_preserves_process (env : Env) (path : String)
    (net : Network) (x : List Rat)
    (h : ∀ ly ∈ net.layers, ∀ n ∈ ly.neurons, (actEnum n.activation).isSome) :
    Network.load path (.ok net.save) = .ok (reloadNet net) ∧
      ((reloadNet net).process env x).2 = (net.process env x).2 := by
  refine ⟨load_save_eq path net h, ?_⟩
  unfold Network.process
  rcases h₁ : networkGo env (reloadNet net).layers x none with ⟨a₁, b₁⟩
  rcases h₂ : networkGo env net.layers x none with ⟨a₂, b₂⟩
  have hsim := networkGo_snd_obsEq env (forall₂_reload_layers net.layers) x none
  rw [h₁, h₂] at hsim
  simpa using hsim

/-- A network exercising all four registry activations: tanh and step in
the first layer, sigmoid and linear in the second. -/
def netRT : Network :=
  ⟨[⟨[{ weights := [1], bias := 0, activation := some .tanh,
        derive := some .tanh },
      { weights := [1], bias := 5, activation := some .step,
        derive := some .step }]⟩,
    ⟨[{ weights := [1, 2], bias := 3, activation := some .sigmoid,
        derive := some .sigmoid },
      { weights := [4, 5], bias := 6, activation := some .linear,
        derive := some .linear }]⟩]⟩

/-- C1 witness: the round-trip theorem applied to `netRT` and input `[2]`. -/
theorem save_load_roundtrip_preserves_process_witness :
    Network.load "model.json" (.ok netRT.save) = .ok (reloadNet netRT) ∧
      ((reloadNet netRT).process envT [2]).2 = (netRT.process envT [2]).2 :=
  save_load_roundtrip_preserves_process envT "model.json" netRT [2]
    (by decide)
